import Mathlib

/-!
A shallow embedding of the book-acquisition pipeline of `book_downloader.py`
(catalog search, result ranking, format-aware selection, mirror resolution,
streamed download, multi-query orchestration), together with theorems about
its behaviour.

Modelling conventions:
* Python strings are `List Char` (`Str`); Python's truthiness test on a
  string is `isEmpty`.
* The regular-expression passes of `clean_title` are translated as explicit
  left-to-right scanners with the same leftmost, non-overlapping semantics
  (greedy `\d+`/`\s+`, lazy `.*?` stopping at the first closer and failing on
  a newline, word boundaries via the previous character's word-ness).
* `difflib.SequenceMatcher.ratio` is translated from its documented
  semantics: total size of the recursively computed matching blocks, where
  each step takes the longest matching contiguous block, ties going to the
  lowest start in `a` and then in `b` (the autojunk heuristic is inert for
  strings shorter than 200 characters, such as titles).
* Python's stable `sorted` is modelled by a stable insertion sort with the
  same key; effects (HTTP, filesystem) are oracles plus an event trace, and
  the unbounded `while True:` mirror loop runs on explicit fuel, returning a
  dedicated `fuelOut` marker when the fuel is exhausted.
* The debug-HTML dumps and `time.sleep` of the source are not modelled (the
  spec marks them as not behaviourally load-bearing), and the search oracle
  returns the rows as parsed from the results table (rows with too few cells
  already skipped), with the raw `file_format` cell text: `hunt_for_book`
  itself lowercases it, as line 136 of the source does.
-/

abbrev Str := List Char

/-- ASCII whitespace as recognised by Python's `str.strip` and regex `\s`. -/
def pyIsSpace (c : Char) : Bool :=
  c == ' ' || c == '\t' || c == '\n' || c == '\r' || c == Char.ofNat 11 || c == Char.ofNat 12

/-- ASCII decimal digit, Python regex `\d` on this codebase's ASCII data. -/
def pyIsDigit (c : Char) : Bool :=
  decide ('0' ≤ c) && decide (c ≤ '9')

/-- Python regex word character `\w` (ASCII): letters, digits, underscore. -/
def isWordChar (c : Char) : Bool :=
  (decide ('a' ≤ c) && decide (c ≤ 'z')) || (decide ('A' ≤ c) && decide (c ≤ 'Z')) ||
    pyIsDigit c || c == '_'

/-- Python `str.lower()` on ASCII data. -/
def pyLower (s : Str) : Str := s.map Char.toLower

/-- Python `str.strip()`: drop leading and trailing whitespace. -/
def pyStrip (s : Str) : Str :=
  ((s.dropWhile pyIsSpace).reverse.dropWhile pyIsSpace).reverse

/-- `re.sub(r'\s+', ' ', s)`: each maximal whitespace run becomes one space.
The Bool records whether we are inside a run whose single space was emitted. -/
def collapseGo : Bool → Str → Str
  | _, [] => []
  | inRun, c :: rest =>
    if pyIsSpace c then
      if inRun then collapseGo true rest else ' ' :: collapseGo true rest
    else c :: collapseGo false rest

def collapseWs (s : Str) : Str := collapseGo false s

/-! ### clean_title (book_downloader.py lines 61-74) -/

/-- Greedy `\d+` (at least one digit), returning the rest. -/
def matchDigits1 (l : Str) : Option Str :=
  if (l.takeWhile pyIsDigit).isEmpty then none else some (l.dropWhile pyIsDigit)

/-- `(st|nd|rd|th)`, case-insensitively. -/
def matchOrdinalSuffix : Str → Option Str
  | a :: b :: rest =>
    if (a.toLower == 's' && b.toLower == 't') || (a.toLower == 'n' && b.toLower == 'd') ||
        (a.toLower == 'r' && b.toLower == 'd') || (a.toLower == 't' && b.toLower == 'h') then
      some rest
    else none
  | _ => none

/-- Greedy `\s+` (at least one whitespace character). -/
def matchSpaces1 (l : Str) : Option Str :=
  if (l.takeWhile pyIsSpace).isEmpty then none else some (l.dropWhile pyIsSpace)

/-- A literal word (given lowercase), case-insensitively. -/
def matchLitCI : Str → Str → Option Str
  | [], l => some l
  | _ :: _, [] => none
  | w :: ws, c :: rest => if c.toLower == w then matchLitCI ws rest else none

/-- Word boundary `\b` after a word character: next char absent or non-word. -/
def boundaryAfter : Str → Option Str
  | [] => some []
  | c :: rest => if isWordChar c then none else some (c :: rest)

/-- One attempt of `\b\d+(st|nd|rd|th)\s+edition\b` (IGNORECASE) at the head
of `l`; `prevWord` tells whether the previous character is a word character
(the match starts with a digit, so `\b` holds iff it is not). -/
def tryEditionMatch (prevWord : Bool) (l : Str) : Option Str :=
  if prevWord then none
  else
    (matchDigits1 l).bind fun r1 =>
    (matchOrdinalSuffix r1).bind fun r2 =>
    (matchSpaces1 r2).bind fun r3 =>
    (matchLitCI "edition".data r3).bind fun r4 =>
    boundaryAfter r4

/-- Left-to-right scan of `re.sub(r'\b\d+(st|nd|rd|th)\s+edition\b', '', s,
flags=re.IGNORECASE)`: each match is removed, scanning resumes right after
it (the match ends in `n`, a word character). Fuel is the remaining length;
every step consumes at least one character, so `l.length` fuel suffices. -/
def editionSubGo : Nat → Bool → Str → Str
  | 0, _, l => l
  | _ + 1, _, [] => []
  | fuel + 1, prevW, c :: rest =>
    match tryEditionMatch prevW (c :: rest) with
    | some r => editionSubGo fuel true r
    | none => c :: editionSubGo fuel (isWordChar c) rest

def editionSub (l : Str) : Str := editionSubGo l.length false l

/-- Lazy `.*?[\)\]]`: scan to the first closer; `.` does not match a newline,
so a newline before any closer makes the whole attempt fail. -/
def findCloser : Str → Option Str
  | [] => none
  | c :: rest =>
    if c == ')' || c == ']' then some rest
    else if c == '\n' then none
    else findCloser rest

/-- One attempt of `\s*[\(\[].*?[\)\]]` at the head of `l`. -/
def tryBracketMatch (l : Str) : Option Str :=
  match l.dropWhile pyIsSpace with
  | c :: rest => if c == '(' || c == '[' then findCloser rest else none
  | [] => none

/-- Left-to-right scan of `re.sub(r'\s*[\(\[].*?[\)\]]', '', s)`. -/
def bracketSubGo : Nat → Str → Str
  | 0, l => l
  | _ + 1, [] => []
  | fuel + 1, c :: rest =>
    match tryBracketMatch (c :: rest) with
    | some r => bracketSubGo fuel r
    | none => c :: bracketSubGo fuel rest

def bracketSub (l : Str) : Str := bracketSubGo l.length l

/-- `clean_title` (lines 61-74): text before the first colon, then the
edition-marker removal, then the bracketed-segment removal, then whitespace
collapapse and strip. -/
def clean_title (title : Str) : Str :=
  pyStrip (collapseWs (bracketSub (editionSub (title.takeWhile (fun c => c != ':')))))

/-! ### Query planner (search_and_download_book lines 40-50) -/

/-- The ordered candidate search queries built from a request (lines 41-50).
`if isbn:` and `if title and author:` are Python truthiness tests; the
second query is an f-string interpolation followed by `.strip()`. -/
def plannerQueries (title author isbn : Str) : List Str :=
  (if isbn.isEmpty then [] else [isbn]) ++
    (if !title.isEmpty && !author.isEmpty then [pyStrip (title ++ ' ' :: author)] else []) ++
    [title, clean_title title ++ ' ' :: author, clean_title title]

/-! ### Similarity and ranking (closest_match, order_results_by_closest_match) -/

/-- Length of the common run of equal characters at the heads of two lists. -/
def runLen : Str → Str → Nat
  | x :: xs, y :: ys => if x == y then runLen xs ys + 1 else 0
  | _, _ => 0

/-- Candidate block starts, in the tie-breaking scan order: `i` ascending,
then `j` ascending. -/
def lmCandidates (a b : Str) : List (Nat × Nat) :=
  (List.range a.length).foldr
    (fun i acc => ((List.range b.length).map fun j => (i, j)) ++ acc) []

/-- Keep the better (strictly longer) block; on ties the earlier candidate
in scan order is kept, matching `find_longest_match`'s lowest-`i`-then-`j`. -/
def lmStep (a b : Str) (best : Nat × Nat × Nat) (c : Nat × Nat) : Nat × Nat × Nat :=
  let k := runLen (a.drop c.1) (b.drop c.2)
  if best.2.2 < k then (c.1, c.2, k) else best

/-- `find_longest_match` over whole strings: the longest matching contiguous
block `(i, j, size)`, ties to the lowest `i` and then the lowest `j`. -/
def longestMatch (a b : Str) : Nat × Nat × Nat :=
  (lmCandidates a b).foldl (lmStep a b) (0, 0, 0)

/-- Total size of `get_matching_blocks`: the longest block plus the blocks
found recursively to its left and right. Fuel bounds the recursion depth;
`a.length + b.length` always suffices since every level consumes the block. -/
def matchSumF : Nat → Str → Str → Nat
  | 0, _, _ => 0
  | fuel + 1, a, b =>
    let m := longestMatch a b
    if m.2.2 = 0 then 0
    else
      m.2.2 + matchSumF fuel (a.take m.1) (b.take m.2.1) +
        matchSumF fuel (a.drop (m.1 + m.2.2)) (b.drop (m.2.1 + m.2.2))

/-- `SequenceMatcher.ratio()`: `2*M/T` with `T` the total length (and `1.0`
when both strings are empty, as `_calculate_ratio` does). -/
def simRatioQ (a b : Str) : ℚ :=
  if a.length + b.length = 0 then 1
  else mkRat (2 * matchSumF (a.length + b.length) a b) (a.length + b.length)

/-- `closest_match` (lines 224-228): similarity of the lowercased strings. -/
def closest_match (real_title candidate_title : Str) : ℚ :=
  simRatioQ (pyLower real_title) (pyLower candidate_title)

/-- One parsed results-table row (lines 112-159): the nine extracted cells,
with the mirrors cell kept as its ordered list of link hrefs. -/
structure Row where
  title : Str
  author : Str
  publisher : Str
  year : Str
  language : Str
  pages : Str
  size : Str
  file_format : Str
  mirrors : List Str
deriving DecidableEq

/-- Stable descending insertion: `x` goes before the first element whose key
is not larger, so among equal keys the earlier-input element stays first. -/
def rankInsert (key : Row → ℚ) (x : Row) : List Row → List Row
  | [] => [x]
  | y :: ys => if key y ≤ key x then x :: y :: ys else y :: rankInsert key x ys

def rankSortBy (key : Row → ℚ) : List Row → List Row
  | [] => []
  | x :: xs => rankInsert key x (rankSortBy key xs)

/-- `order_results_by_closest_match` (lines 230-234): Python's stable
`sorted` with key `-closest_match(real_title, x['title'])`, i.e. a stable
sort by descending similarity. -/
def order_results_by_closest_match (real_title : Str) (results : List Row) : List Row :=
  rankSortBy (fun x => closest_match real_title x.title) results

/-! ### Format selection (hunt_for_book lines 167-196) -/

/-- The first scan (lines 168-171): `result['file_format'] in
preferred_formats` is exact list membership. -/
def have_desired_format (preferred_formats : List Str) (rows : List Row) : Bool :=
  rows.any fun r => decide (r.file_format ∈ preferred_formats)

/-- Python's `needle in haystack` on strings: contiguous substring test. -/
def containsSub (needle : Str) : Str → Bool
  | [] => needle.isEmpty
  | c :: rest => needle.isPrefixOf (c :: rest) || containsSub needle rest

/-- The per-row check (lines 186-191): `preferred_format.lower() in
file_format`, a case-insensitive-on-the-preference substring match. -/
def rowMatchesPreferred (preferred_formats : List Str) (r : Row) : Bool :=
  preferred_formats.any fun p => containsSub (pyLower p) r.file_format

/-- The rows the loop actually attempts (line 194: skip iff a desired format
exists somewhere and this row does not match). -/
def acceptedRows (preferred_formats : List Str) (rows : List Row) : List Row :=
  if have_desired_format preferred_formats rows then
    rows.filter (rowMatchesPreferred preferred_formats)
  else rows

/-! ### Downloader filename sanitization (download_book lines 343-344) -/

/-- The class `[a-zA-Z0-9.\-_ ]` of `re.sub(r'[^a-zA-Z0-9.\-_ ]', '_', s)`. -/
def allowedFilenameChar (c : Char) : Bool :=
  (decide ('a' ≤ c) && decide (c ≤ 'z')) || (decide ('A' ≤ c) && decide (c ≤ 'Z')) ||
    (decide ('0' ≤ c) && decide (c ≤ '9')) || c == '.' || c == '-' || c == '_' || c == ' '

/-- Lines 343-344: replace each character outside the class by `_`, then
`strip()`. -/
def sanitizeFilename (name : Str) : Str :=
  pyStrip (name.map fun c => if allowedFilenameChar c then c else '_')

/-! ### URLs and oracles -/

def LIBGEN_BASE_URL : Str := "https://libgen.li".data

/-- `make_absolute_url` (lines 236-245). -/
def make_absolute_url (url : Str) : Str :=
  if "http".data.isPrefixOf url then url
  else if "/".data.isPrefixOf url then LIBGEN_BASE_URL ++ url
  else LIBGEN_BASE_URL ++ '/' :: url

/-- An exception a Python call can raise (`raise_for_status`, I/O errors). -/
inductive PyExn
  | httpStatus (code : Nat)
  | ioError
deriving DecidableEq

/-- The pipeline's external effects as oracles: `search q` is the catalog
GET plus table parsing for query `q` (error = non-2xx raise; rows otherwise);
`fetchGET u` fetches mirror page `u` and reports the href of its link whose
text is exactly "GET", if any; `download u` is `download_book` on the direct
URL `u`, returning the written file's path or raising. -/
structure Oracles where
  search : Str → Except PyExn (List Row)
  fetchGET : Str → Except PyExn (Option Str)
  download : Str → Except PyExn Str

/-- The observable side effects, in order of occurrence. -/
inductive Ev
  | mkdir (dir : Str)
  | search (query : Str)
  | fetchMirror (cursor : Nat) (url : Str)
  | download (url : Str)
deriving DecidableEq

/-! ### Mirror resolution (extract_download_link lines 247-295) -/

/-- `extract_download_link`, with the list of performed mirror-page fetches
`(cursor, absolute url)` as a trace. An empty href advances the cursor with
no fetch; a fetched page without a GET link advances the cursor; a GET link
ends the walk; a fetch error propagates. Fuel is structural; the wrapper
passes `links.length + 1`, enough for the cursor to reach the end. -/
def extractGo (fetch : Str → Except PyExn (Option Str)) (links : List Str) :
    Nat → Nat → Except PyExn (Option Str) × List (Nat × Str)
  | 0, _ => (.ok none, [])
  | fuel + 1, cursor =>
    if links.isEmpty then (.ok none, [])
    else if links.length ≤ cursor then (.ok none, [])
    else
      let href := links.getD cursor []
      if href.isEmpty then extractGo fetch links fuel (cursor + 1)
      else
        let murl := make_absolute_url href
        match fetch murl with
        | .error e => (.error e, [(cursor, murl)])
        | .ok none =>
          let r := extractGo fetch links fuel (cursor + 1)
          (r.1, (cursor, murl) :: r.2)
        | .ok (some g) => (.ok (some (make_absolute_url g)), [(cursor, murl)])

def extract_download_link (fetch : Str → Except PyExn (Option Str)) (links : List Str)
    (cursor : Nat) : Except PyExn (Option Str) × List (Nat × Str) :=
  extractGo fetch links (links.length + 1) cursor

/-! ### The per-row mirror loop (hunt_for_book lines 198-219) -/

/-- The hunt result dict (lines 212-218). -/
structure AcqResult where
  title : Str
  author : Str
  format : Str
  size : Str
  download_url : Str
  download_result : Str
deriving DecidableEq

/-- Outcome of the `while True:` loop over one row's mirrors: a download, a
clean exhaustion, a propagated exception, or out of fuel (the loop did not
terminate within `fuel` iterations). -/
inductive MLOut
  | ok (r : Option (Str × Str))
  | err (e : PyExn)
  | fuelOut
deriving DecidableEq

/-- The `while True:` loop of lines 199-219, verbatim: each iteration calls
`extract_download_link(mirrors_cell, cursor=0)` — cursor zero every time —
then tries `download_book` and on an exception `continue`s. -/
def mirrorLoopF (o : Oracles) (mirrors : List Str) : Nat → MLOut × List Ev
  | 0 => (.fuelOut, [])
  | fuel + 1 =>
    let er := extract_download_link o.fetchGET mirrors 0
    let evs := er.2.map fun p => Ev.fetchMirror p.1 p.2
    match er.1 with
    | .error e => (.err e, evs)
    | .ok none => (.ok none, evs)
    | .ok (some link) =>
      match o.download link with
      | .error _ =>
        let nxt := mirrorLoopF o mirrors fuel
        (nxt.1, evs ++ Ev.download link :: nxt.2)
      | .ok path => (.ok (some (link, path)), evs ++ [Ev.download link])

/-! ### hunt_for_book (lines 77-222) and the orchestrator (lines 31-58) -/

/-- Outcome of `hunt_for_book` / `search_and_download_book`: a result dict,
`None`, an uncaught exception, or divergence of the inner mirror loop. -/
inductive HOut
  | found (r : AcqResult)
  | notFound
  | err (e : PyExn)
  | spin
deriving DecidableEq

/-- The `for i, result in enumerate(sorted_results)` loop (lines 176-219). -/
def rowLoopT (o : Oracles) (fuel : Nat) (preferred_formats : List Str) (hd : Bool) :
    List Row → HOut × List Ev
  | [] => (.notFound, [])
  | r :: rest =>
    if hd && !rowMatchesPreferred preferred_formats r then
      rowLoopT o fuel preferred_formats hd rest
    else
      match mirrorLoopF o r.mirrors fuel with
      | (.ok none, tr) =>
        let nxt := rowLoopT o fuel preferred_formats hd rest
        (nxt.1, tr ++ nxt.2)
      | (.ok (some lp), tr) =>
        (.found ⟨r.title, r.author, r.file_format, r.size, lp.1, lp.2⟩, tr)
      | (.err e, tr) => (.err e, tr)
      | (.fuelOut, tr) => (.spin, tr)

/-- Line 136: the parsing loop lowercases the format cell. -/
def lowerFormats (rows : List Row) : List Row :=
  rows.map fun r =>
    ⟨r.title, r.author, r.publisher, r.year, r.language, r.pages, r.size,
      pyLower r.file_format, r.mirrors⟩

/-- `hunt_for_book`: search (propagating a raise), empty results give `None`,
otherwise rank by `original_title or search_query`, compute the desired-format
flag, and walk the rows. -/
def hunt_for_book (o : Oracles) (fuel : Nat) (search_query : Str)
    (preferred_formats : List Str) (original_title : Str) : HOut × List Ev :=
  match o.search search_query with
  | .error e => (.err e, [Ev.search search_query])
  | .ok rawRows =>
    if rawRows.isEmpty then (.notFound, [Ev.search search_query])
    else
      let all_results := lowerFormats rawRows
      let real_title := if original_title.isEmpty then search_query else original_title
      let sorted_results := order_results_by_closest_match real_title all_results
      let hd := have_desired_format preferred_formats sorted_results
      let res := rowLoopT o fuel preferred_formats hd sorted_results
      (res.1, Ev.search search_query :: res.2)

/-- The `for search_query in search_queries` loop (lines 52-55): a truthy
hunt result returns, `None` falls through to the next query; note there is
no `try` around the call, so a raise propagates. -/
def queryLoopT (o : Oracles) (fuel : Nat) (preferred_formats : List Str)
    (original_title : Str) : List Str → HOut × List Ev
  | [] => (.notFound, [])
  | q :: qs =>
    match hunt_for_book o fuel q preferred_formats original_title with
    | (.found r, tr) => (.found r, tr)
    | (.notFound, tr) =>
      let nxt := queryLoopT o fuel preferred_formats original_title qs
      (nxt.1, tr ++ nxt.2)
    | (.err e, tr) => (.err e, tr)
    | (.spin, tr) => (.spin, tr)

/-- `search_and_download_book` (lines 31-58): create the download directory,
build the queries, try them in order, return the first hit or `None`. -/
def search_and_download_book (o : Oracles) (fuel : Nat)
    (title author isbn download_dir : Str) (preferred_formats : List Str) :
    HOut × List Ev :=
  let res := queryLoopT o fuel preferred_formats title (plannerQueries title author isbn)
  (res.1, Ev.mkdir download_dir :: res.2)

/-! ### Concrete instances used by the theorems below -/

/-- A result row with the given format (other cells immaterial). -/
def mkFmtRow (fmt : Str) : Row :=
  ⟨"T".data, [], [], [], [], [], [], fmt, []⟩

/-- A result row with the given title (other cells immaterial). -/
def mkTitleRow (t : Str) : Row :=
  ⟨t, [], [], [], [], [], [], "epub".data, []⟩

def c1MirrorHref : Str := "/ads.php?md5=x".data

def c1GetHref : Str := "/get.php?md5=x".data

/-- A world with one working mirror page whose GET-link download raises:
resolution of the row's mirror list succeeds at index 0, the download fails. -/
def c1Oracles : Oracles :=
  ⟨fun _ => .ok [],
    fun u => if u = make_absolute_url c1MirrorHref then .ok (some c1GetHref) else .ok none,
    fun _ => .error .ioError⟩

/-- A world whose catalog search endpoint answers every query with HTTP 500. -/
def c2Oracles : Oracles :=
  ⟨fun _ => .error (.httpStatus 500), fun _ => .ok none, fun _ => .error .ioError⟩

/-- A world whose catalog search returns zero rows for every query. -/
def emptySearchOracles : Oracles :=
  ⟨fun _ => .ok [], fun _ => .ok none, fun _ => .error .ioError⟩

/-- Mirror-page fetcher for the three-mirror scenario: only the page of the
third mirror (`href` "m2") carries a GET link. -/
def c7Fetch : Str → Except PyExn (Option Str) := fun u =>
  if u = make_absolute_url "m2".data then .ok (some "g".data) else .ok none

/-! ### General helper lemmas -/

theorem emptyFalse_of_ne_nil (s : Str) (hs : s ≠ []) : s.isEmpty = false := by
  cases s with
  | nil => exact absurd rfl hs
  | cons c cs => rfl

theorem mem_dropWhile_sub {p : Char → Bool} {l : Str} : l.dropWhile p ⊆ l :=
  (List.dropWhile_sublist _).subset

theorem pyStrip_subset (s : Str) : pyStrip s ⊆ s := by
  intro c hc
  unfold pyStrip at hc
  rw [List.mem_reverse] at hc
  have h2 := mem_dropWhile_sub hc
  rw [List.mem_reverse] at h2
  exact mem_dropWhile_sub h2

theorem hunt_of_search_error {o : Oracles} {q : Str} {e : PyExn} (fuel : Nat)
    (prefs : List Str) (ot : Str) (h : o.search q = .error e) :
    hunt_for_book o fuel q prefs ot = (.err e, [Ev.search q]) := by
  unfold hunt_for_book
  rw [h]

theorem hunt_of_search_empty {o : Oracles} {q : Str} (fuel : Nat)
    (prefs : List Str) (ot : Str) (h : o.search q = .ok []) :
    hunt_for_book o fuel q prefs ot = (.notFound, [Ev.search q]) := by
  unfold hunt_for_book
  rw [h]
  rfl

theorem queryLoop_error_after_empty {o : Oracles} {fuel : Nat} {prefs : List Str}
    {ot : Str} {q : Str} {post : List Str} {e : PyExn} (pre : List Str)
    (hpre : ∀ p ∈ pre, o.search p = .ok []) (hq : o.search q = .error e) :
    (queryLoopT o fuel prefs ot (pre ++ q :: post)).1 = .err e := by
  induction pre with
  | nil =>
    rw [List.nil_append]
    unfold queryLoopT
    rw [hunt_of_search_error fuel prefs ot hq]
  | cons p pre ih =>
    rw [List.cons_append]
    unfold queryLoopT
    rw [hunt_of_search_empty fuel prefs ot (hpre p (List.mem_cons_self p pre))]
    exact ih fun x hx => hpre x (List.mem_cons_of_mem p hx)

theorem queryLoop_all_empty {o : Oracles} {fuel : Nat} {prefs : List Str} {ot : Str}
    (qs : List Str) (h : ∀ q ∈ qs, o.search q = .ok []) :
    queryLoopT o fuel prefs ot qs = (.notFound, qs.map Ev.search) := by
  induction qs with
  | nil => rfl
  | cons q qs ih =>
    unfold queryLoopT
    rw [hunt_of_search_empty fuel prefs ot (h q (List.mem_cons_self q qs))]
    rw [ih fun x hx => h x (List.mem_cons_of_mem q hx)]
    rfl

/-! ### Claim C1 -/

/-- Claim C1: the spec says a download error makes the per-row mirror walk
advance the cursor and never retry the same mirror index. In the code the
`while True:` loop re-runs `extract_download_link(mirrors_cell, cursor=0)`
on every iteration, so after a download error it refetches mirror index 0
again: for a one-mirror row whose page has a GET link and whose download
raises, every iteration fetches index 0 and retries the same download, and
the loop never terminates (for every fuel it ends in `fuelOut`, with `fuel`
repetitions of the same fetch-index-0/download pair in the trace). -/
theorem C1_mirror_walk_retries_index_zero (fuel : Nat) :
    mirrorLoopF c1Oracles [c1MirrorHref] fuel =
      (.fuelOut,
        (List.replicate fuel
            [Ev.fetchMirror 0 (make_absolute_url c1MirrorHref),
              Ev.download (make_absolute_url c1GetHref)]).flatten) := by
  induction fuel with
  | zero => rfl
  | succ n ih =>
    show ((mirrorLoopF c1Oracles [c1MirrorHref] n).1,
        Ev.fetchMirror 0 (make_absolute_url c1MirrorHref) ::
          Ev.download (make_absolute_url c1GetHref) ::
            (mirrorLoopF c1Oracles [c1MirrorHref] n).2) = _
    rw [ih]
    rfl

/-! ### Claim C2 -/

/-- Claim C2 counterexample: with a catalog whose search answers HTTP 500,
the acquisition does not fall back to the next candidate query and does not
terminate with a result or none: the exception propagates out of
`search_and_download_book` (no `try` surrounds the `hunt_for_book` call),
and the trace shows only the first query was ever searched. -/
theorem C2_counterexample :
    search_and_download_book c2Oracles 1 "Dune".data "Herbert".data
        "9780441013593".data "downloads".data ["epub".data] =
      (.err (.httpStatus 500),
        [Ev.mkdir "downloads".data, Ev.search "9780441013593".data]) := by
  rfl

/-- Claim C2 (amended): a non-2xx response to the catalog search is NOT
recovered by the orchestrator: if the queries before `q` found no rows and
the search for `q` raises, the whole acquisition aborts with that exception
(later queries are never attempted); fallback to the next query happens only
when a search succeeds but yields nothing. -/
theorem C2_search_error_aborts (o : Oracles) (fuel : Nat) (t a i dir : Str)
    (prefs : List Str) (pre post : List Str) (q : Str) (e : PyExn)
    (hsplit : plannerQueries t a i = pre ++ q :: post)
    (hpre : ∀ p ∈ pre, o.search p = .ok [])
    (hq : o.search q = .error e) :
    (search_and_download_book o fuel t a i dir prefs).1 = .err e := by
  show (queryLoopT o fuel prefs t (plannerQueries t a i)).1 = .err e
  rw [hsplit]
  exact queryLoop_error_after_empty pre hpre hq

theorem C2_search_error_aborts_witness :
    (search_and_download_book c2Oracles 1 "Dune".data "Herbert".data
        "9780441013593".data "downloads".data ["epub".data]).1 =
      .err (.httpStatus 500) :=
  C2_search_error_aborts c2Oracles 1 "Dune".data "Herbert".data "9780441013593".data
    "downloads".data ["epub".data] []
    ["Dune Herbert".data, "Dune".data, "Dune Herbert".data, "Dune".data]
    "9780441013593".data (.httpStatus 500) (by decide)
    (fun p hp => absurd hp (List.not_mem_nil p)) rfl

/-! ### Claim C3 -/

/-- Claim C3 counterexample: the `anyPreferredFormatExists` flag is not the
same match as the per-row check. With preferred formats `["EPUB"]` and one
row of (parser-lowercased) format `"epub"`, the row passes the per-row
case-insensitive substring test but the flag — exact, case-sensitive list
membership — is false. -/
theorem C3_counterexample :
    ¬((have_desired_format ["EPUB".data] [mkFmtRow "epub".data] = true) ↔
        ∃ r ∈ [mkFmtRow "epub".data], rowMatchesPreferred ["EPUB".data] r = true) := by
  decide

/-- Claim C3 (amended): the flag is computed by exact, case-sensitive list
membership of the row's format in the preferred-format list (lines 168-171),
not by the per-row case-insensitive substring test: the flag is true iff
some row's format string is literally an element of the preferred list. -/
theorem C3_flag_is_exact_membership (preferred_formats : List Str) (rows : List Row) :
    have_desired_format preferred_formats rows = true ↔
      ∃ r ∈ rows, r.file_format ∈ preferred_formats := by
  simp [have_desired_format]

/-! ### Claim C4 -/

/-- Claim C4: with rows of formats pdf, epub, mobi and preference `["epub"]`
only the epub row is attempted; with rows pdf, djvu and preference
`["epub"]` both rows are attempted in their ranked order (degrade to best
available only when no row anywhere has a preferred format). -/
theorem C4_format_selector_examples :
    acceptedRows ["epub".data]
        [mkFmtRow "pdf".data, mkFmtRow "epub".data, mkFmtRow "mobi".data] =
        [mkFmtRow "epub".data] ∧
      acceptedRows ["epub".data] [mkFmtRow "pdf".data, mkFmtRow "djvu".data] =
        [mkFmtRow "pdf".data, mkFmtRow "djvu".data] :=
  ⟨rfl, rfl⟩

/-! ### Claim C5 -/

/-- Claim C5 counterexample: the header-provided name
`"My Book: Part 1?.epub"` is NOT saved as `"My_Book__Part_1_.epub"`: the
space character is inside the allowed class `[a-zA-Z0-9.\-_ ]`, so spaces
are preserved, not replaced by underscores. -/
theorem C5_counterexample :
    sanitizeFilename "My Book: Part 1?.epub".data ≠ "My_Book__Part_1_.epub".data := by
  decide

/-- Claim C5 (amended): sanitization replaces every character outside
`[A-Za-z0-9.\-_ ]` with an underscore (then strips); spaces are in the
allowed set and survive, so `"My Book: Part 1?.epub"` is saved as
`"My Book_ Part 1_.epub"`, and every character of any sanitized filename is
in the allowed set. -/
theorem C5_sanitize_amended :
    sanitizeFilename "My Book: Part 1?.epub".data = "My Book_ Part 1_.epub".data ∧
      ∀ (l : Str), ∀ c ∈ sanitizeFilename l, allowedFilenameChar c = true := by
  refine ⟨by decide, fun l c hc => ?_⟩
  have hm := pyStrip_subset _ hc
  rw [List.mem_map] at hm
  obtain ⟨x, _, hx⟩ := hm
  by_cases h : allowedFilenameChar x = true
  · rw [if_pos h] at hx
    exact hx ▸ h
  · rw [if_neg h] at hx
    rw [← hx]
    rfl

/-! ### Claim C9 -/

/-- Claim C9 counterexample: for title `" A"`, author `"B"`, ISBN `"1"`,
the second emitted query is not `"{title} {author}"`: the code strips the
interpolation, yielding `"A B"` instead of `" A B"`. -/
theorem C9_counterexample :
    (plannerQueries " A".data "B".data "1".data).getD 1 [] ≠
      " A".data ++ ' ' :: "B".data := by
  decide

/-- Claim C9 (amended): for a request with non-empty title, author and ISBN
the planner emits exactly five queries in order — the ISBN itself, the
whitespace-stripped `"{title} {author}"`, the raw title, the cleaned title
concatenated with the author, and the cleaned title alone — and when every
query's search yields zero rows the orchestrator returns none after
searching all five. -/
theorem C9_planner_amended (t a i : Str) (ht : t ≠ []) (ha : a ≠ []) (hi : i ≠ []) :
    plannerQueries t a i =
        [i, pyStrip (t ++ ' ' :: a), t, clean_title t ++ ' ' :: a, clean_title t] ∧
      ∀ (o : Oracles) (fuel : Nat) (dir : Str) (prefs : List Str),
        (∀ q ∈ plannerQueries t a i, o.search q = .ok []) →
          search_and_download_book o fuel t a i dir prefs =
            (.notFound, Ev.mkdir dir :: (plannerQueries t a i).map Ev.search) := by
  constructor
  · simp [plannerQueries, emptyFalse_of_ne_nil t ht, emptyFalse_of_ne_nil a ha,
      emptyFalse_of_ne_nil i hi]
  · intro o fuel dir prefs h
    show ((queryLoopT o fuel prefs t (plannerQueries t a i)).1,
        Ev.mkdir dir :: (queryLoopT o fuel prefs t (plannerQueries t a i)).2) = _
    rw [queryLoop_all_empty _ h]

theorem C9_planner_amended_witness :
    plannerQueries "Dune".data "Herbert".data "9780441013593".data =
      ["9780441013593".data, pyStrip ("Dune".data ++ ' ' :: "Herbert".data), "Dune".data,
        clean_title "Dune".data ++ ' ' :: "Herbert".data, clean_title "Dune".data] :=
  (C9_planner_amended "Dune".data "Herbert".data "9780441013593".data
    (by decide) (by decide) (by decide)).1

/-! ### Mirror-resolver step lemmas and claims C7, C10 -/

theorem extractGo_oob (fetch : Str → Except PyExn (Option Str)) (links : List Str)
    (fuel cursor : Nat) (h : links.length ≤ cursor) :
    extractGo fetch links (fuel + 1) cursor = (.ok none, []) := by
  unfold extractGo
  cases links with
  | nil => rfl
  | cons x xs =>
    rw [if_neg (by simp : ¬((x :: xs).isEmpty = true)), if_pos h]

theorem extractGo_step_skip (fetch : Str → Except PyExn (Option Str)) (links : List Str)
    (fuel cursor : Nat) (hin : cursor < links.length) (hne : links.getD cursor [] ≠ [])
    (hf : fetch (make_absolute_url (links.getD cursor [])) = .ok none) :
    extractGo fetch links (fuel + 1) cursor =
      ((extractGo fetch links fuel (cursor + 1)).1,
        (cursor, make_absolute_url (links.getD cursor [])) ::
          (extractGo fetch links fuel (cursor + 1)).2) := by
  obtain ⟨x, xs, rfl⟩ : ∃ x xs, links = x :: xs := by
    cases links with
    | nil => exact absurd hin (by simp)
    | cons x xs => exact ⟨x, xs, rfl⟩
  simp only [extractGo]
  rw [if_neg (by simp : ¬((x :: xs).isEmpty = true)), if_neg (not_le.mpr hin)]
  rw [if_neg (by rw [emptyFalse_of_ne_nil _ hne]; exact Bool.false_ne_true :
    ¬(((x :: xs).getD cursor []).isEmpty = true))]
  simp only [hf]

theorem extractGo_step_hit (fetch : Str → Except PyExn (Option Str)) (links : List Str)
    (fuel cursor : Nat) (g : Str) (hin : cursor < links.length)
    (hne : links.getD cursor [] ≠ [])
    (hf : fetch (make_absolute_url (links.getD cursor [])) = .ok (some g)) :
    extractGo fetch links (fuel + 1) cursor =
      (.ok (some (make_absolute_url g)),
        [(cursor, make_absolute_url (links.getD cursor []))]) := by
  obtain ⟨x, xs, rfl⟩ : ∃ x xs, links = x :: xs := by
    cases links with
    | nil => exact absurd hin (by simp)
    | cons x xs => exact ⟨x, xs, rfl⟩
  simp only [extractGo]
  rw [if_neg (by simp : ¬((x :: xs).isEmpty = true)), if_neg (not_le.mpr hin)]
  rw [if_neg (by rw [emptyFalse_of_ne_nil _ hne]; exact Bool.false_ne_true :
    ¬(((x :: xs).getD cursor []).isEmpty = true))]
  simp only [hf]

/-- Claim C7: for a 3-mirror row whose first two mirror pages have no GET
link and whose third does, a single resolution starting at cursor 0 performs
exactly the three fetches, at indices 0, 1, 2 in order, and returns the
third page's GET link made absolute; and whenever the cursor reaches or
exceeds the mirror-list length, resolution returns none with no fetch at
all.  The last conjunct instantiates the first at a concrete fetch oracle. -/
theorem C7_mirror_resolution_cursor :
    (∀ (fetch : Str → Except PyExn (Option Str)) (h0 h1 h2 g : Str),
        h0 ≠ [] → h1 ≠ [] → h2 ≠ [] →
        fetch (make_absolute_url h0) = .ok none →
        fetch (make_absolute_url h1) = .ok none →
        fetch (make_absolute_url h2) = .ok (some g) →
        extract_download_link fetch [h0, h1, h2] 0 =
          (.ok (some (make_absolute_url g)),
            [(0, make_absolute_url h0), (1, make_absolute_url h1),
              (2, make_absolute_url h2)])) ∧
      (∀ (fetch : Str → Except PyExn (Option Str)) (links : List Str) (cursor : Nat),
        links.length ≤ cursor →
          extract_download_link fetch links cursor = (.ok none, [])) ∧
      extract_download_link c7Fetch ["m0".data, "m1".data, "m2".data] 0 =
        (.ok (some (make_absolute_url "g".data)),
          [(0, make_absolute_url "m0".data), (1, make_absolute_url "m1".data),
            (2, make_absolute_url "m2".data)]) := by
  refine ⟨?_, ?_, rfl⟩
  · intro fetch h0 h1 h2 g n0 n1 n2 f0 f1 f2
    show extractGo fetch [h0, h1, h2] (3 + 1) 0 = _
    rw [extractGo_step_skip fetch [h0, h1, h2] 3 0 (by simp) n0 f0]
    rw [extractGo_step_skip fetch [h0, h1, h2] 2 1 (by simp) n1 f1]
    rw [extractGo_step_hit fetch [h0, h1, h2] 1 2 g (by simp) n2 f2]
    rfl
  · intro fetch links cursor h
    show extractGo fetch links (links.length + 1) cursor = _
    exact extractGo_oob fetch links links.length cursor h

theorem no_download_in_fetch_evs (l : List (Nat × Str)) (u : Str) :
    Ev.download u ∉ l.map fun p => Ev.fetchMirror p.1 p.2 := by
  simp

theorem mirror_spin {o : Oracles} {mirrors : List Str} {link : Str} {e : PyExn}
    (hx : (extract_download_link o.fetchGET mirrors 0).1 = .ok (some link))
    (hd : o.download link = .error e) :
    ∀ fuel, (mirrorLoopF o mirrors fuel).1 = .fuelOut := by
  intro fuel
  induction fuel with
  | zero => rfl
  | succ n ih =>
    simp only [mirrorLoopF, hx, hd]
    exact ih

theorem mirror_no_download {o : Oracles} {mirrors : List Str} {fuel : Nat}
    (h : (mirrorLoopF o mirrors fuel).1 = .ok none) :
    ∀ u, Ev.download u ∉ (mirrorLoopF o mirrors fuel).2 := by
  intro u
  cases fuel with
  | zero => exact absurd h (by simp [mirrorLoopF])
  | succ n =>
    rcases hx : (extract_download_link o.fetchGET mirrors 0).1 with e | og
    · simp only [mirrorLoopF, hx] at h
      simp at h
    · rcases og with _ | link
      · simp only [mirrorLoopF, hx]
        exact no_download_in_fetch_evs _ u
      · rcases hd : o.download link with e | path
        · have := mirror_spin hx hd (n + 1)
          rw [this] at h
          cases h
        · simp only [mirrorLoopF, hx, hd] at h
          simp at h

theorem rowLoop_no_download {o : Oracles} {fuel : Nat} {prefs : List Str} {hd : Bool}
    (rows : List Row) (h : (rowLoopT o fuel prefs hd rows).1 = .notFound) :
    ∀ u, Ev.download u ∉ (rowLoopT o fuel prefs hd rows).2 := by
  intro u
  induction rows with
  | nil => simp [rowLoopT]
  | cons r rest ih =>
    by_cases hskip : (hd && !rowMatchesPreferred prefs r) = true
    · simp only [rowLoopT] at h ⊢
      rw [if_pos hskip] at h ⊢
      exact ih h
    · rcases hm : mirrorLoopF o r.mirrors fuel with ⟨out, tr⟩
      cases out with
      | ok og =>
        cases og with
        | none =>
          simp only [rowLoopT, hm] at h ⊢
          rw [if_neg hskip] at h ⊢
          rw [List.mem_append]
          push_neg
          have h1 : (mirrorLoopF o r.mirrors fuel).1 = .ok none := by rw [hm]
          have h2 := mirror_no_download h1 u
          rw [hm] at h2
          exact ⟨h2, ih h⟩
        | some lp =>
          simp only [rowLoopT, hm] at h
          rw [if_neg hskip] at h
          exact absurd h (by simp)
      | err e =>
        simp only [rowLoopT, hm] at h
        rw [if_neg hskip] at h
        exact absurd h (by simp)
      | fuelOut =>
        simp only [rowLoopT, hm] at h
        rw [if_neg hskip] at h
        exact absurd h (by simp)

theorem hunt_no_download {o : Oracles} {fuel : Nat} {q : Str} {prefs : List Str}
    {ot : Str} (h : (hunt_for_book o fuel q prefs ot).1 = .notFound) :
    ∀ u, Ev.download u ∉ (hunt_for_book o fuel q prefs ot).2 := by
  intro u
  rcases hs : o.search q with e | rows
  · rw [hunt_of_search_error fuel prefs ot hs] at h
    exact absurd h (by simp)
  · by_cases hrows : rows.isEmpty = true
    · have hnil : rows = [] := by
        cases rows with
        | nil => rfl
        | cons x xs => exact absurd hrows (by simp)
      rw [hnil] at hs
      rw [hunt_of_search_empty fuel prefs ot hs]
      simp
    · simp only [hunt_for_book, hs] at h ⊢
      rw [if_neg hrows] at h ⊢
      simp only [List.mem_cons] at *
      push_neg
      refine ⟨by simp, ?_⟩
      exact rowLoop_no_download _ h u

theorem queryLoop_no_download {o : Oracles} {fuel : Nat} {prefs : List Str} {ot : Str}
    (qs : List Str) (h : (queryLoopT o fuel prefs ot qs).1 = .notFound) :
    ∀ u, Ev.download u ∉ (queryLoopT o fuel prefs ot qs).2 := by
  intro u
  induction qs with
  | nil => simp [queryLoopT]
  | cons q qs ih =>
    rcases hq : hunt_for_book o fuel q prefs ot with ⟨out, tr⟩
    cases out with
    | found r =>
      simp only [queryLoopT, hq] at h
      exact absurd h (by simp)
    | notFound =>
      simp only [queryLoopT, hq] at h ⊢
      rw [List.mem_append]
      push_neg
      have h1 : (hunt_for_book o fuel q prefs ot).1 = .notFound := by rw [hq]
      have h2 := hunt_no_download h1 u
      rw [hq] at h2
      exact ⟨h2, ih h⟩
    | err e =>
      simp only [queryLoopT, hq] at h
      exact absurd h (by simp)
    | spin =>
      simp only [queryLoopT, hq] at h
      exact absurd h (by simp)

/-- Claim C10: every invocation of `search_and_download_book` performs the
directory creation first — before any search — so the side effect remains
whatever the outcome; and whenever the pipeline returns none, no download
(hence no file write into the download directory) ever happened. -/
theorem C10_mkdir_first_no_file_on_none (o : Oracles) (fuel : Nat)
    (t a i dir : Str) (prefs : List Str) :
    (search_and_download_book o fuel t a i dir prefs).2.head? = some (Ev.mkdir dir) ∧
      ((search_and_download_book o fuel t a i dir prefs).1 = .notFound →
        ∀ u, Ev.download u ∉ (search_and_download_book o fuel t a i dir prefs).2) := by
  constructor
  · rfl
  · intro h u
    have h1 : (queryLoopT o fuel prefs t (plannerQueries t a i)).1 = .notFound := h
    show Ev.download u ∉
      Ev.mkdir dir :: (queryLoopT o fuel prefs t (plannerQueries t a i)).2
    rw [List.mem_cons]
    push_neg
    exact ⟨by simp, queryLoop_no_download _ h1 u⟩

/-! ### Ranking lemmas and claim C8 -/

theorem runLen_le_left : ∀ xs ys : Str, runLen xs ys ≤ xs.length := by
  intro xs
  induction xs with
  | nil => intro ys; cases ys <;> simp [runLen]
  | cons x xs ih =>
    intro ys
    cases ys with
    | nil => simp [runLen]
    | cons y ys =>
      simp only [runLen, List.length_cons]
      split
      · exact Nat.succ_le_succ (ih ys)
      · exact Nat.zero_le _

theorem runLen_le_right : ∀ xs ys : Str, runLen xs ys ≤ ys.length := by
  intro xs
  induction xs with
  | nil => intro ys; cases ys <;> simp [runLen]
  | cons x xs ih =>
    intro ys
    cases ys with
    | nil => simp [runLen]
    | cons y ys =>
      simp only [runLen, List.length_cons]
      split
      · exact Nat.succ_le_succ (ih ys)
      · exact Nat.zero_le _

theorem runLen_self : ∀ l : Str, runLen l l = l.length := by
  intro l
  induction l with
  | nil => rfl
  | cons x xs ih => simp [runLen, ih]

theorem foldl_preserve {α β : Type} (f : β → α → β) (P : β → Prop) :
    ∀ (l : List α) (b : β), P b → (∀ b' a, a ∈ l → P b' → P (f b' a)) →
      P (l.foldl f b) := by
  intro l
  induction l with
  | nil => intro b hb _; exact hb
  | cons a l ih =>
    intro b hb hf
    exact ih (f b a) (hf b a (List.mem_cons_self a l) hb)
      fun b' x hx => hf b' x (List.mem_cons_of_mem a hx)

theorem mem_foldr_append {α β : Type} (f : α → List β) (ns : List α) (x : β) :
    (x ∈ ns.foldr (fun i acc => f i ++ acc) []) ↔ ∃ i ∈ ns, x ∈ f i := by
  induction ns with
  | nil => simp
  | cons n ns ih => simp [List.mem_append, ih]

theorem mem_lmCandidates {a b : Str} {c : Nat × Nat} (hc : c ∈ lmCandidates a b) :
    c.1 < a.length ∧ c.2 < b.length := by
  unfold lmCandidates at hc
  rw [mem_foldr_append] at hc
  obtain ⟨i, hi, hmap⟩ := hc
  rw [List.mem_map] at hmap
  obtain ⟨j, hj, rfl⟩ := hmap
  exact ⟨List.mem_range.mp hi, List.mem_range.mp hj⟩

theorem longestMatch_valid (a b : Str) :
    (longestMatch a b).1 + (longestMatch a b).2.2 ≤ a.length ∧
      (longestMatch a b).2.1 + (longestMatch a b).2.2 ≤ b.length := by
  unfold longestMatch
  refine foldl_preserve (lmStep a b)
    (fun best => best.1 + best.2.2 ≤ a.length ∧ best.2.1 + best.2.2 ≤ b.length)
    (lmCandidates a b) (0, 0, 0) (by simp) ?_
  intro best c hc hbest
  obtain ⟨hia, hjb⟩ := mem_lmCandidates hc
  simp only [lmStep]
  split
  · dsimp only
    constructor
    · have hk := runLen_le_left (a.drop c.1) (b.drop c.2)
      rw [List.length_drop] at hk
      omega
    · have hk := runLen_le_right (a.drop c.1) (b.drop c.2)
      rw [List.length_drop] at hk
      omega
  · exact hbest

theorem matchSumF_le_left : ∀ (fuel : Nat) (a b : Str), matchSumF fuel a b ≤ a.length := by
  intro fuel
  induction fuel with
  | zero => intro a b; exact Nat.zero_le _
  | succ n ih =>
    intro a b
    have hv := longestMatch_valid a b
    simp only [matchSumF]
    split
    · exact Nat.zero_le _
    · have h1 := ih (a.take (longestMatch a b).1) (b.take (longestMatch a b).2.1)
      have h2 := ih (a.drop ((longestMatch a b).1 + (longestMatch a b).2.2))
        (b.drop ((longestMatch a b).2.1 + (longestMatch a b).2.2))
      rw [List.length_take] at h1
      rw [List.length_drop] at h2
      omega

theorem matchSumF_le_right : ∀ (fuel : Nat) (a b : Str), matchSumF fuel a b ≤ b.length := by
  intro fuel
  induction fuel with
  | zero => intro a b; exact Nat.zero_le _
  | succ n ih =>
    intro a b
    have hv := longestMatch_valid a b
    simp only [matchSumF]
    split
    · exact Nat.zero_le _
    · have h1 := ih (a.take (longestMatch a b).1) (b.take (longestMatch a b).2.1)
      have h2 := ih (a.drop ((longestMatch a b).1 + (longestMatch a b).2.2))
        (b.drop ((longestMatch a b).2.1 + (longestMatch a b).2.2))
      rw [List.length_take] at h1
      rw [List.length_drop] at h2
      omega

theorem simRatioQ_nonneg (a b : Str) : 0 ≤ simRatioQ a b := by
  unfold simRatioQ
  split
  · exact zero_le_one
  · rw [Rat.mkRat_eq_div]
    apply div_nonneg
    · positivity
    · positivity

theorem simRatioQ_le_one (a b : Str) : simRatioQ a b ≤ 1 := by
  unfold simRatioQ
  split
  · exact le_refl 1
  · rename_i hT
    rw [Rat.mkRat_eq_div]
    rw [div_le_one (by exact_mod_cast Nat.pos_of_ne_zero hT)]
    have h1 := matchSumF_le_left (a.length + b.length) a b
    have h2 := matchSumF_le_right (a.length + b.length) a b
    have hle : 2 * matchSumF (a.length + b.length) a b ≤ a.length + b.length := by omega
    exact_mod_cast hle

theorem matchSumF_nil : ∀ fuel : Nat, matchSumF fuel [] [] = 0 := by
  intro fuel
  cases fuel with
  | zero => rfl
  | succ n => rfl

theorem longestMatch_self (l : Str) (hl : l ≠ []) :
    longestMatch l l = (0, 0, l.length) := by
  obtain ⟨c, rest, rfl⟩ : ∃ c rest, l = c :: rest := by
    cases l with
    | nil => exact absurd rfl hl
    | cons c rest => exact ⟨c, rest, rfl⟩
  have hstep : lmStep (c :: rest) (c :: rest) (0, 0, 0) (0, 0) =
      (0, 0, (c :: rest).length) := by
    simp only [lmStep, List.drop_zero, runLen_self]
    rw [if_pos (by simp)]
  have hcand : ∃ t, lmCandidates (c :: rest) (c :: rest) = (0, 0) :: t := by
    unfold lmCandidates
    simp only [List.length_cons, List.range_succ_eq_map, List.foldr_cons, List.map_cons,
      List.cons_append]
    exact ⟨_, rfl⟩
  obtain ⟨t, ht⟩ := hcand
  unfold longestMatch
  rw [ht, List.foldl_cons, hstep]
  refine foldl_preserve (lmStep (c :: rest) (c :: rest))
    (fun best => best = (0, 0, (c :: rest).length)) t _ rfl ?_
  intro best cand _ hbest
  subst hbest
  simp only [lmStep]
  rw [if_neg ?_]
  have hk := runLen_le_left ((c :: rest).drop cand.1) ((c :: rest).drop cand.2)
  rw [List.length_drop] at hk
  omega

theorem matchSumF_self (l : Str) (hl : l ≠ []) (fuel : Nat) :
    matchSumF (fuel + 1) l l = l.length := by
  simp only [matchSumF, longestMatch_self l hl]
  rw [if_neg ?_]
  · simp only [List.take_zero, List.drop_zero, matchSumF_nil, Nat.zero_add]
    rw [List.drop_length]
    rw [matchSumF_nil]
    omega
  · intro h0
    apply hl
    cases l with
    | nil => rfl
    | cons x xs => exact absurd h0 (by simp)

theorem simRatioQ_self (l : Str) : simRatioQ l l = 1 := by
  cases hl : l with
  | nil => rfl
  | cons c rest =>
    unfold simRatioQ
    rw [if_neg (by simp)]
    have hM : matchSumF ((c :: rest).length + (c :: rest).length) (c :: rest) (c :: rest) =
        (c :: rest).length :=
      matchSumF_self (c :: rest) (by simp) ((c :: rest).length + rest.length)
    rw [hM, Rat.mkRat_eq_div]
    rw [div_eq_one_iff_eq (by exact_mod_cast Nat.cast_ne_zero.mpr (by simp))]
    push_cast
    ring

theorem closest_match_nonneg_le_one (s t : Str) :
    0 ≤ closest_match s t ∧ closest_match s t ≤ 1 :=
  ⟨simRatioQ_nonneg _ _, simRatioQ_le_one _ _⟩

theorem closest_match_of_lower_eq {s t : Str} (h : pyLower t = pyLower s) :
    closest_match s t = 1 := by
  unfold closest_match
  rw [h]
  exact simRatioQ_self _

theorem rankInsert_perm (key : Row → ℚ) (x : Row) :
    ∀ l : List Row, (rankInsert key x l).Perm (x :: l) := by
  intro l
  induction l with
  | nil => exact List.Perm.refl _
  | cons y ys ih =>
    unfold rankInsert
    split
    · exact List.Perm.refl _
    · exact List.Perm.trans (ih.cons y) (List.Perm.swap x y ys)

theorem rankSortBy_perm (key : Row → ℚ) :
    ∀ l : List Row, (rankSortBy key l).Perm l := by
  intro l
  induction l with
  | nil => exact List.Perm.refl _
  | cons x xs ih =>
    exact List.Perm.trans (rankInsert_perm key x (rankSortBy key xs)) (ih.cons x)

theorem mem_rankInsert {key : Row → ℚ} {x z : Row} {l : List Row}
    (h : z ∈ rankInsert key x l) : z = x ∨ z ∈ l := by
  have := (rankInsert_perm key x l).mem_iff.mp h
  rw [List.mem_cons] at this
  exact this

theorem rankInsert_sorted (key : Row → ℚ) (x : Row) :
    ∀ l : List Row, l.Pairwise (fun u v => key v ≤ key u) →
      (rankInsert key x l).Pairwise (fun u v => key v ≤ key u) := by
  intro l
  induction l with
  | nil => intro _; simp [rankInsert]
  | cons y ys ih =>
    intro hl
    rw [List.pairwise_cons] at hl
    obtain ⟨hy, hys⟩ := hl
    unfold rankInsert
    split
    · rename_i h
      rw [List.pairwise_cons]
      refine ⟨?_, List.pairwise_cons.mpr ⟨hy, hys⟩⟩
      intro z hz
      rw [List.mem_cons] at hz
      rcases hz with rfl | hz
      · exact h
      · exact le_trans (hy z hz) h
    · rename_i h
      rw [List.pairwise_cons]
      refine ⟨?_, ih hys⟩
      intro z hz
      rcases mem_rankInsert hz with rfl | hz
      · exact le_of_lt (lt_of_not_le h)
      · exact hy z hz

theorem rankSortBy_sorted (key : Row → ℚ) :
    ∀ l : List Row, (rankSortBy key l).Pairwise (fun u v => key v ≤ key u) := by
  intro l
  induction l with
  | nil => simp [rankSortBy]
  | cons x xs ih => exact rankInsert_sorted key x (rankSortBy key xs) ih

theorem rankInsert_filter_eq {key : Row → ℚ} {x : Row} {q : ℚ} (hx : key x = q) :
    ∀ l : List Row,
      (rankInsert key x l).filter (fun r => decide (key r = q)) =
        x :: l.filter (fun r => decide (key r = q)) := by
  intro l
  induction l with
  | nil => simp [rankInsert, hx]
  | cons y ys ih =>
    unfold rankInsert
    split
    · simp [List.filter_cons, hx]
    · rename_i h
      have hy : key y ≠ q := by
        intro hq
        exact h (le_of_eq (hx ▸ hq))
      simp only [List.filter_cons, decide_eq_true_eq]
      rw [if_neg (by simpa using hy), if_neg (by simpa using hy)]
      exact ih

theorem rankInsert_filter_ne {key : Row → ℚ} {x : Row} {q : ℚ} (hx : key x ≠ q) :
    ∀ l : List Row,
      (rankInsert key x l).filter (fun r => decide (key r = q)) =
        l.filter (fun r => decide (key r = q)) := by
  intro l
  induction l with
  | nil => simp [rankInsert, hx]
  | cons y ys ih =>
    unfold rankInsert
    split
    · simp only [List.filter_cons, decide_eq_true_eq]
      rw [if_neg (by simpa using hx)]
    · simp only [List.filter_cons, decide_eq_true_eq]
      by_cases hy : key y = q
      · rw [if_pos (by simpa using hy), if_pos (by simpa using hy), ih]
      · rw [if_neg (by simpa using hy), if_neg (by simpa using hy), ih]

theorem rankSortBy_filter (key : Row → ℚ) (q : ℚ) :
    ∀ l : List Row,
      (rankSortBy key l).filter (fun r => decide (key r = q)) =
        l.filter (fun r => decide (key r = q)) := by
  intro l
  induction l with
  | nil => rfl
  | cons x xs ih =>
    by_cases hx : key x = q
    · show (rankInsert key x (rankSortBy key xs)).filter _ = _
      rw [rankInsert_filter_eq hx, ih]
      simp [List.filter_cons, hx]
    · show (rankInsert key x (rankSortBy key xs)).filter _ = _
      rw [rankInsert_filter_ne hx, ih]
      simp [List.filter_cons, hx]

theorem pairwise_head_ge {key : Row → ℚ} {h : Row} {t : List Row}
    (hp : (h :: t).Pairwise (fun u v => key v ≤ key u)) {z : Row}
    (hz : z ∈ h :: t) : key z ≤ key h := by
  rw [List.mem_cons] at hz
  rcases hz with rfl | hz
  · exact le_refl _
  · exact (List.pairwise_cons.mp hp).1 z hz

/-- Claim C8: the ranker sorts rows by descending case-insensitive
sequence-similarity of their title to the real title, the score is in
`[0,1]`, the sort is stable (rows with equal scores keep their original
relative order, stated as: filtering on any score value commutes with the
sort), a row whose title equals the real title case-insensitively scores
1.0 and the ranked head then has score 1.0, and on the three-row example
the exact match is first and the unrelated title last. -/
theorem C8_ranker_descending_stable :
    (∀ (real_title : Str) (rows : List Row),
        (order_results_by_closest_match real_title rows).Pairwise
          (fun u v => closest_match real_title v.title ≤ closest_match real_title u.title)) ∧
      (∀ (real_title : Str) (rows : List Row),
        (order_results_by_closest_match real_title rows).Perm rows) ∧
      (∀ (real_title : Str) (rows : List Row) (q : ℚ),
        (order_results_by_closest_match real_title rows).filter
            (fun r => decide (closest_match real_title r.title = q)) =
          rows.filter (fun r => decide (closest_match real_title r.title = q))) ∧
      (∀ s t : Str, 0 ≤ closest_match s t ∧ closest_match s t ≤ 1) ∧
      (∀ (real_title : Str) (rows : List Row) (r : Row), r ∈ rows →
        pyLower r.title = pyLower real_title →
          ∃ h, (order_results_by_closest_match real_title rows).head? = some h ∧
            closest_match real_title h.title = 1) ∧
      order_results_by_closest_match "Atomic Habits".data
          [mkTitleRow "Atomic Habits".data, mkTitleRow "Atomic Habit".data,
            mkTitleRow "Random Book".data] =
        [mkTitleRow "Atomic Habits".data, mkTitleRow "Atomic Habit".data,
          mkTitleRow "Random Book".data] := by
  refine ⟨?_, ?_, ?_, ?_, ?_, by set_option maxRecDepth 100000 in decide⟩
  · intro real_title rows
    exact rankSortBy_sorted _ rows
  · intro real_title rows
    exact rankSortBy_perm _ rows
  · intro real_title rows q
    exact rankSortBy_filter _ q rows
  · intro s t
    exact closest_match_nonneg_le_one s t
  · intro real_title rows r hr hlow
    have hperm := rankSortBy_perm (fun x => closest_match real_title x.title) rows
    have hrmem : r ∈ order_results_by_closest_match real_title rows :=
      hperm.mem_iff.mpr hr
    have hsorted := rankSortBy_sorted (fun x => closest_match real_title x.title) rows
    cases horder : order_results_by_closest_match real_title rows with
    | nil =>
      rw [horder] at hrmem
      exact absurd hrmem (List.not_mem_nil r)
    | cons h t =>
      refine ⟨h, rfl, ?_⟩
      have hsorted2 : (h :: t).Pairwise
          (fun u v => closest_match real_title v.title ≤ closest_match real_title u.title) := by
        rw [← horder]
        exact hsorted
      have hrmem2 : r ∈ h :: t := by rw [← horder]; exact hrmem
      have hge := pairwise_head_ge hsorted2 hrmem2
      have hr1 : closest_match real_title r.title = 1 := closest_match_of_lower_eq hlow
      have hle := (closest_match_nonneg_le_one real_title h.title).2
      rw [hr1] at hge
      exact le_antisymm hle hge

/-! ### clean_title lemmas and claim C6 -/

theorem matchLitCI_suffix : ∀ (w l r : Str), matchLitCI w l = some r → r <:+ l := by
  intro w
  induction w with
  | nil =>
    intro l r h
    rw [matchLitCI] at h
    cases h
    exact List.suffix_refl _
  | cons x xs ih =>
    intro l r h
    cases l with
    | nil => cases h
    | cons c rest =>
      rw [matchLitCI] at h
      split at h
      · exact (ih rest r h).trans (List.suffix_cons c rest)
      · cases h

theorem findCloser_suffix : ∀ (l r : Str), findCloser l = some r → r <:+ l := by
  intro l
  induction l with
  | nil => intro r h; cases h
  | cons c rest ih =>
    intro r h
    rw [findCloser] at h
    split at h
    · cases h
      exact List.suffix_cons c rest
    · split at h
      · cases h
      · exact (ih r h).trans (List.suffix_cons c rest)

theorem boundaryAfter_suffix : ∀ (l r : Str), boundaryAfter l = some r → r <:+ l := by
  intro l r h
  cases l with
  | nil => cases h; exact List.suffix_refl _
  | cons c rest =>
    rw [boundaryAfter] at h
    split at h
    · cases h
    · cases h
      exact List.suffix_refl _

theorem matchOrdinalSuffix_suffix : ∀ (l r : Str), matchOrdinalSuffix l = some r → r <:+ l := by
  intro l r h
  rcases l with _ | ⟨a, _ | ⟨b, rest⟩⟩
  · cases h
  · cases h
  · rw [matchOrdinalSuffix] at h
    split at h
    · cases h
      exact (List.suffix_cons _ _).trans (List.suffix_cons _ _)
    · cases h

theorem matchDigits1_suffix : ∀ (l r : Str), matchDigits1 l = some r → r <:+ l := by
  intro l r h
  rw [matchDigits1] at h
  split at h
  · cases h
  · cases h
    exact List.dropWhile_suffix _

theorem matchSpaces1_suffix : ∀ (l r : Str), matchSpaces1 l = some r → r <:+ l := by
  intro l r h
  rw [matchSpaces1] at h
  split at h
  · cases h
  · cases h
    exact List.dropWhile_suffix _

theorem tryEditionMatch_suffix {prevW : Bool} {l r : Str}
    (h : tryEditionMatch prevW l = some r) : r <:+ l := by
  rw [tryEditionMatch] at h
  split at h
  · cases h
  · rcases h1 : matchDigits1 l with _ | r1
    · rw [h1] at h; cases h
    · rw [h1, Option.some_bind] at h
      rcases h2 : matchOrdinalSuffix r1 with _ | r2
      · rw [h2] at h; cases h
      · rw [h2, Option.some_bind] at h
        rcases h3 : matchSpaces1 r2 with _ | r3
        · rw [h3] at h; cases h
        · rw [h3, Option.some_bind] at h
          rcases h4 : matchLitCI "edition".data r3 with _ | r4
          · rw [h4] at h; cases h
          · rw [h4, Option.some_bind] at h
            exact ((((boundaryAfter_suffix r4 r h).trans
              (matchLitCI_suffix _ r3 r4 h4)).trans
                (matchSpaces1_suffix r2 r3 h3)).trans
                  (matchOrdinalSuffix_suffix r1 r2 h2)).trans
                    (matchDigits1_suffix l r1 h1)

theorem tryBracketMatch_suffix {l r : Str} (h : tryBracketMatch l = some r) : r <:+ l := by
  have hs : l.dropWhile pyIsSpace <:+ l := List.dropWhile_suffix _
  rw [tryBracketMatch] at h
  generalize hu : l.dropWhile pyIsSpace = u at h hs
  rcases u with _ | ⟨c, rest⟩
  · cases h
  · rw [show (match c :: rest with
        | c :: rest => if (c == '(' || c == '[') = true then findCloser rest else none
        | [] => none) =
          if (c == '(' || c == '[') = true then findCloser rest else none from rfl] at h
    split at h
    · exact ((findCloser_suffix _ r h).trans (List.suffix_cons _ _)).trans hs
    · cases h

theorem editionSubGo_subset : ∀ (fuel : Nat) (prevW : Bool) (l : Str),
    editionSubGo fuel prevW l ⊆ l := by
  intro fuel
  induction fuel with
  | zero => intro prevW l; exact fun c hc => hc
  | succ n ih =>
    intro prevW l
    cases l with
    | nil => exact fun c hc => hc
    | cons c rest =>
      rw [editionSubGo]
      rcases hm : tryEditionMatch prevW (c :: rest) with _ | r
      · intro z hz
        rw [List.mem_cons] at hz
        rcases hz with rfl | hz
        · exact List.mem_cons_self _ _
        · exact List.mem_cons_of_mem _ (ih (isWordChar c) rest hz)
      · intro z hz
        exact (tryEditionMatch_suffix hm).subset (ih true r hz)

theorem bracketSubGo_subset : ∀ (fuel : Nat) (l : Str), bracketSubGo fuel l ⊆ l := by
  intro fuel
  induction fuel with
  | zero => intro l; exact fun c hc => hc
  | succ n ih =>
    intro l
    cases l with
    | nil => exact fun c hc => hc
    | cons c rest =>
      rw [bracketSubGo]
      rcases hm : tryBracketMatch (c :: rest) with _ | r
      · intro z hz
        rw [List.mem_cons] at hz
        rcases hz with rfl | hz
        · exact List.mem_cons_self _ _
        · exact List.mem_cons_of_mem _ (ih rest hz)
      · intro z hz
        exact (tryBracketMatch_suffix hm).subset (ih r hz)

theorem collapseGo_mem : ∀ (b : Bool) (l : Str) (c : Char),
    c ∈ collapseGo b l → c ∈ l ∨ c = ' ' := by
  intro b l
  induction l generalizing b with
  | nil => intro c hc; cases hc
  | cons d rest ih =>
    intro c hc
    rw [collapseGo] at hc
    split at hc
    · split at hc
      · rcases ih true c hc with h | h
        · exact Or.inl (List.mem_cons_of_mem _ h)
        · exact Or.inr h
      · rw [List.mem_cons] at hc
        rcases hc with rfl | hc
        · exact Or.inr rfl
        · rcases ih true c hc with h | h
          · exact Or.inl (List.mem_cons_of_mem _ h)
          · exact Or.inr h
    · rw [List.mem_cons] at hc
      rcases hc with rfl | hc
      · exact Or.inl (List.mem_cons_self _ _)
      · rcases ih false c hc with h | h
        · exact Or.inl (List.mem_cons_of_mem _ h)
        · exact Or.inr h

theorem clean_title_no_colon (t : Str) : ':' ∉ clean_title t := by
  intro hc
  have h1 := pyStrip_subset _ hc
  rcases collapseGo_mem false _ ':' h1 with h2 | h2
  · have h3 := bracketSubGo_subset _ _ h2
    have h4 := editionSubGo_subset _ _ _ h3
    have h5 := List.mem_takeWhile_imp h4
    simp at h5
  · cases h2

theorem takeWhile_colon_clean (t : Str) :
    (clean_title t).takeWhile (fun c => c != ':') = clean_title t := by
  rw [List.takeWhile_eq_self_iff]
  intro c hc
  have : c ≠ ':' := fun h => clean_title_no_colon t (h ▸ hc)
  simpa using this

/-- The relation of having no two adjacent whitespace characters. -/
def noWsPair (a b : Char) : Prop := ¬(pyIsSpace a = true ∧ pyIsSpace b = true)

theorem collapseGo_wsSp : ∀ (b : Bool) (l : Str) (c : Char),
    c ∈ collapseGo b l → pyIsSpace c = true → c = ' ' := by
  intro b l
  induction l generalizing b with
  | nil => intro c hc; cases hc
  | cons d rest ih =>
    intro c hc hsp
    rw [collapseGo] at hc
    split at hc
    · split at hc
      · exact ih true c hc hsp
      · rw [List.mem_cons] at hc
        rcases hc with rfl | hc
        · rfl
        · exact ih true c hc hsp
    · rw [List.mem_cons] at hc
      rcases hc with rfl | hc
      · rename_i hd
        exact absurd hsp hd
      · exact ih false c hc hsp

theorem collapseGo_true_head : ∀ (l : Str) (c : Char),
    (collapseGo true l).head? = some c → pyIsSpace c = false := by
  intro l
  induction l with
  | nil => intro c hc; cases hc
  | cons d rest ih =>
    intro c hc
    rw [collapseGo] at hc
    split at hc
    · rw [if_pos rfl] at hc
      exact ih c hc
    · rw [List.head?_cons, Option.some_inj] at hc
      rename_i hd
      rw [← hc]
      exact Bool.not_eq_true _ ▸ hd

theorem collapseGo_noWsRun : ∀ (b : Bool) (l : Str),
    (collapseGo b l).Chain' noWsPair := by
  intro b l
  induction l generalizing b with
  | nil => exact List.chain'_nil
  | cons d rest ih =>
    rw [collapseGo]
    split
    · split
      · exact ih true
      · rw [List.chain'_cons']
        refine ⟨?_, ih true⟩
        intro z hz
        intro hpair
        rw [collapseGo_true_head rest z hz] at hpair
        exact Bool.false_ne_true hpair.2
    · rw [List.chain'_cons']
      refine ⟨?_, ih false⟩
      intro z hz
      intro hpair
      rename_i hd
      exact hd hpair.1

theorem collapseGo_id : ∀ l : Str, l.Chain' noWsPair →
    (∀ c ∈ l, pyIsSpace c = true → c = ' ') →
    (collapseGo false l = l ∧
      ((∀ c, l.head? = some c → pyIsSpace c = false) → collapseGo true l = l)) := by
  intro l
  induction l with
  | nil => exact fun _ _ => ⟨rfl, fun _ => rfl⟩
  | cons d rest ih =>
    intro hchain hws
    rw [List.chain'_cons'] at hchain
    obtain ⟨hhead, hrest⟩ := hchain
    obtain ⟨ihf, iht⟩ := ih hrest fun c hc => hws c (List.mem_cons_of_mem _ hc)
    constructor
    · rw [collapseGo]
      by_cases hd : pyIsSpace d = true
      · rw [if_pos hd, if_neg Bool.false_ne_true]
        have hd' : d = ' ' := hws d (List.mem_cons_self _ _) hd
        rw [iht ?_, hd']
        intro c hc
        have := hhead c hc
        unfold noWsPair at this
        by_cases hcs : pyIsSpace c = true
        · exact absurd ⟨hd, hcs⟩ this
        · exact Bool.not_eq_true _ ▸ hcs
      · rw [if_neg hd, ihf]
    · intro hheadall
      rw [collapseGo]
      have hd : ¬(pyIsSpace d = true) := by
        have := hheadall d (List.head?_cons)
        rw [this]
        exact Bool.false_ne_true
      rw [if_neg hd, ihf]

theorem head_dropWhile_not (p : Char → Bool) : ∀ (l : Str) (c : Char),
    (l.dropWhile p).head? = some c → p c = false := by
  intro l
  induction l with
  | nil => intro c hc; cases hc
  | cons d rest ih =>
    intro c hc
    rw [List.dropWhile_cons] at hc
    split at hc
    · exact ih c hc
    · rw [List.head?_cons, Option.some_inj] at hc
      rename_i hd
      rw [← hc]
      exact Bool.not_eq_true _ ▸ hd

theorem getLast_append_ne {α : Type} (l₁ l₂ : List α) (h : l₂ ≠ []) :
    (l₁ ++ l₂).getLast? = l₂.getLast? := by
  induction l₁ with
  | nil => rw [List.nil_append]
  | cons a l₁ ih =>
    rw [List.cons_append, List.getLast?_cons, ih]
    cases l₂ with
    | nil => exact absurd rfl h
    | cons b l₂ =>
      cases hl : (b :: l₂).getLast? with
      | none => exact absurd (List.getLast?_eq_none_iff.mp hl) (by simp)
      | some z => rfl

theorem noWsPair_flip {a b : Char} (h : noWsPair a b) : noWsPair b a :=
  fun hp => h ⟨hp.2, hp.1⟩

theorem chain_reverse_noWs {l : Str} (h : l.Chain' noWsPair) :
    l.reverse.Chain' noWsPair := by
  rw [List.chain'_reverse]
  exact h.imp fun a b hab => noWsPair_flip hab

theorem chain_pyStrip {l : Str} (h : l.Chain' noWsPair) :
    (pyStrip l).Chain' noWsPair := by
  unfold pyStrip
  have h1 : (l.dropWhile pyIsSpace).Chain' noWsPair :=
    List.Chain'.suffix h (List.dropWhile_suffix _)
  have h2 := chain_reverse_noWs h1
  have h3 : ((l.dropWhile pyIsSpace).reverse.dropWhile pyIsSpace).Chain' noWsPair :=
    List.Chain'.suffix h2 (List.dropWhile_suffix _)
  exact chain_reverse_noWs h3

theorem pyStrip_head_last (l : Str) :
    (∀ c, (pyStrip l).head? = some c → pyIsSpace c = false) ∧
      (∀ c, (pyStrip l).getLast? = some c → pyIsSpace c = false) := by
  unfold pyStrip
  constructor
  · intro c hc
    rw [List.head?_reverse] at hc
    rcases hv : (l.dropWhile pyIsSpace).reverse.dropWhile pyIsSpace with _ | ⟨d, v⟩
    · rw [hv] at hc
      cases hc
    · have hsuf : (l.dropWhile pyIsSpace).reverse.dropWhile pyIsSpace <:+
          (l.dropWhile pyIsSpace).reverse := List.dropWhile_suffix _
      obtain ⟨w, hw⟩ := hsuf
      rw [hv] at hc hw
      have hlast : ((l.dropWhile pyIsSpace).reverse).getLast? = some c := by
        rw [← hw, getLast_append_ne w (d :: v) (by simp), hc]
      rw [List.getLast?_reverse] at hlast
      exact head_dropWhile_not pyIsSpace l c hlast
  · intro c hc
    rw [List.getLast?_reverse] at hc
    exact head_dropWhile_not pyIsSpace _ c hc

theorem pyStrip_eq_self {l : Str}
    (hhead : ∀ c, l.head? = some c → pyIsSpace c = false)
    (hlast : ∀ c, l.getLast? = some c → pyIsSpace c = false) :
    pyStrip l = l := by
  unfold pyStrip
  have h1 : l.dropWhile pyIsSpace = l := by
    cases l with
    | nil => rfl
    | cons d rest =>
      rw [List.dropWhile_cons, if_neg ?_]
      rw [hhead d List.head?_cons]
      exact Bool.false_ne_true
  rw [h1]
  have h2 : l.reverse.dropWhile pyIsSpace = l.reverse := by
    cases hrev : l.reverse with
    | nil => rfl
    | cons d rest =>
      rw [List.dropWhile_cons, if_neg ?_]
      have : l.getLast? = some d := by
        rw [← List.head?_reverse, hrev, List.head?_cons]
      rw [hlast d this]
      exact Bool.false_ne_true
  rw [h2, List.reverse_reverse]

theorem pyStrip_idem (l : Str) : pyStrip (pyStrip l) = pyStrip l :=
  pyStrip_eq_self (pyStrip_head_last l).1 (pyStrip_head_last l).2

theorem collapseWs_clean_title (t : Str) : collapseWs (clean_title t) = clean_title t := by
  have hchain : (clean_title t).Chain' noWsPair :=
    chain_pyStrip (collapseGo_noWsRun false _)
  have hws : ∀ c ∈ clean_title t, pyIsSpace c = true → c = ' ' := by
    intro c hc hsp
    exact collapseGo_wsSp false _ c (pyStrip_subset _ hc) hsp
  exact (collapseGo_id (clean_title t) hchain hws).1

/-- Claim C6 counterexample: title cleaning is not idempotent.  For
`"1st (a) edition"` the first pass removes the bracketed segment, exposing
`"1st edition"`, which a second pass erases entirely; for `"(a\n (b) c)"`
the first pass removes the inner bracket match (the newline blocks the outer
one), leaving `"(a c)"`, which a second pass erases entirely. -/
theorem C6_counterexample :
    clean_title (clean_title "1st (a) edition".data) ≠ clean_title "1st (a) edition".data ∧
      clean_title (clean_title "(a\n (b) c)".data) ≠ clean_title "(a\n (b) c)".data :=
  ⟨by decide, by decide⟩

/-- Claim C6 (amended): title cleaning is idempotent at every title on which
the edition-marker-removal and bracket-removal passes leave the once-cleaned
string unchanged (the colon cut, whitespace collapse and strip always fix the
once-cleaned string).  In general a second application can strip further, as
the counterexamples show. -/
theorem C6_clean_title_conditional_idempotent (t : Str)
    (he : editionSub (clean_title t) = clean_title t)
    (hb : bracketSub (clean_title t) = clean_title t) :
    clean_title (clean_title t) = clean_title t := by
  show pyStrip (collapseWs (bracketSub (editionSub
    ((clean_title t).takeWhile (fun c => c != ':'))))) = clean_title t
  rw [takeWhile_colon_clean, he, hb, collapseWs_clean_title]
  exact pyStrip_idem _

theorem C6_clean_title_conditional_idempotent_witness :
    clean_title (clean_title "The Pragmatic Programmer".data) =
      clean_title "The Pragmatic Programmer".data :=
  C6_clean_title_conditional_idempotent "The Pragmatic Programmer".data
    (by decide) (by decide)
